import Mathlib

/-!
Shallow embedding of the vllm_composer middleware (src/middleware/vllmComposer.py
and the dispatcher of src/middleware/app.py) and proofs about it.

Modelling conventions:
* `datetime.utcnow()` timestamps and `timedelta` durations are integers (`Int`);
  every operation that reads the clock takes the current time `now` explicitly.
* Python dictionaries keyed by server URL are total functions `String → Option _`
  (`defaultdict(int)` becomes `String → Nat` with default `0`); deleting a key
  stores `none`.
* Network I/O is abstracted by an oracle argument: `get_server_load` receives the
  parsed Prometheus load of a successful `GET {url}/metrics` (or `none` for any
  exception), `get_model_on_server` receives the parsed `data` array of a
  successful `GET {url}/v1/models` (or `none` for any exception).
* Loads (Python floats) are rationals `ℚ`; `float('inf')` in the selection loop
  is the `⊤` of `WithTop ℚ`.
-/

namespace VllmComposer

/-- One entry of `self.server_health`: `{"healthy": ..., "last_checked": ...}`. -/
structure HealthInfo where
  healthy : Bool
  last_checked : Option Int
deriving DecidableEq, Repr

/-- One entry of `self.servers` built by `load_config`:
`{"url": ..., "allowed_groups": ..., "last_utilization": None}`. -/
structure Server where
  url : String
  allowed_groups : List String
  last_utilization : Option Int
deriving DecidableEq, Repr

/-- A model descriptor as cached by `get_model_on_server` (`models[0]` of the
`data` array of a backend's `/v1/models` answer): the fields the middleware
reads are `id` and `created`. -/
structure ModelInfo where
  id : String
  created : Int
deriving DecidableEq, Repr

/-- The mutable attributes of class `vllmComposer` that the verified operations
touch. -/
structure ComposerState where
  servers : List Server
  server_health : String → Option HealthInfo
  failure_counts : String → Nat
  circuit_breaker_timeout : String → Option Int
  max_failures : Nat
  cooldown_period : Int
  metrics_cache : String → Option ℚ
  model_cache : String → Option ModelInfo
  model_owner : String
  vllm_token : String

/-- Pointwise update of a URL-keyed map. -/
def setKey {α : Type} (f : String → α) (k : String) (v : α) : String → α :=
  fun k' => if k' = k then v else f k'

/-- `vllmComposer.check_circuit_breaker` (vllmComposer.py:109-122): returns
`False` while the stored timeout lies in the future; otherwise deletes an
expired timeout, resets the failure count, and returns `True`. -/
def check_circuit_breaker (st : ComposerState) (now : Int) (server_url : String) :
    Bool × ComposerState :=
  match st.circuit_breaker_timeout server_url with
  | some t =>
    if now < t then (false, st)
    else
      (true,
        { st with
          circuit_breaker_timeout := setKey st.circuit_breaker_timeout server_url none
          failure_counts := setKey st.failure_counts server_url 0 })
  | none => (true, st)

/-- `vllmComposer.update_server_health` (vllmComposer.py:228-235). -/
def update_server_health (st : ComposerState) (now : Int) (server_url : String)
    (is_healthy : Bool) : ComposerState :=
  let st1 :=
    { st with
      server_health := setKey st.server_health server_url
        (some { healthy := is_healthy, last_checked := some now }) }
  if is_healthy then
    { st1 with failure_counts := setKey st1.failure_counts server_url 0 }
  else st1

/-- `vllmComposer.handle_server_failure` (vllmComposer.py:124-134): bump the
failure count, open the breaker at `now + cooldown_period` once the count
reaches `max_failures`, and mark the server unhealthy. -/
def handle_server_failure (st : ComposerState) (now : Int) (server_url : String) :
    ComposerState :=
  let fc := st.failure_counts server_url + 1
  let st1 := { st with failure_counts := setKey st.failure_counts server_url fc }
  let st2 :=
    if st1.max_failures ≤ fc then
      { st1 with
        circuit_breaker_timeout :=
          setKey st1.circuit_breaker_timeout server_url (some (now + st1.cooldown_period)) }
    else st1
  update_server_health st2 now server_url false

/-- `vllmComposer.is_server_healthy` (vllmComposer.py:237-242): breaker check
first, then the stored `healthy` flag (defaulting to `True` for unknown URLs). -/
def is_server_healthy (st : ComposerState) (now : Int) (server_url : String) :
    Bool × ComposerState :=
  let r := check_circuit_breaker st now server_url
  if r.fst then
    (((r.snd.server_health server_url).getD { healthy := true, last_checked := none }).healthy,
      r.snd)
  else (false, r.snd)

/-- `vllmComposer.get_server_load` (vllmComposer.py:144-190).  The HTTP fetch of
`GET {url}/metrics` plus the Prometheus parsing loop is abstracted by the oracle
`fetch`: `some total_load` is the parsed sum of `vllm:num_requests_running` and
`vllm:num_requests_waiting` on a successful response, `none` is any exception
(timeout, non-2xx, connection error). -/
def get_server_load (st : ComposerState) (now : Int) (server_url : String)
    (fetch : Option ℚ) : Option ℚ × ComposerState :=
  let r := is_server_healthy st now server_url
  if r.fst then
    match r.snd.metrics_cache server_url with
    | some v => (some v, r.snd)
    | none =>
      match fetch with
      | some total_load =>
        let st2 := { r.snd with
          metrics_cache := setKey r.snd.metrics_cache server_url (some total_load) }
        (some total_load, update_server_health st2 now server_url true)
      | none => (none, handle_server_failure r.snd now server_url)
  else (none, r.snd)

/-- `vllmComposer.get_model_on_server` (vllmComposer.py:192-226).  The HTTP fetch
of `GET {url}/v1/models` is abstracted by the oracle `fetch`: `some models` is
the parsed `data` array of a successful JSON response (`data.get("data", [])`,
so an absent array arrives as `some []`), `none` is any exception.  When the
array is empty the Python function falls off the end of the `if models:` block
and returns `None` with no state change. -/
def get_model_on_server (st : ComposerState) (now : Int) (server_url : String)
    (fetch : Option (List ModelInfo)) : Option ModelInfo × ComposerState :=
  let r := is_server_healthy st now server_url
  if r.fst then
    match r.snd.model_cache server_url with
    | some m => (some m, r.snd)
    | none =>
      match fetch with
      | some (model_info :: _) =>
        let st2 := { r.snd with
          model_cache := setKey r.snd.model_cache server_url (some model_info) }
        (some model_info, update_server_health st2 now server_url true)
      | some [] => (none, r.snd)
      | none => (none, handle_server_failure r.snd now server_url)
  else (none, r.snd)

/-- First pass of `vllmComposer.get_least_utilized_server`
(vllmComposer.py:286-294): track the minimum load (`float('inf')` is `⊤`) and
collect the servers attaining it, in input order.  `load` abstracts the results
of `await self.get_server_load(server_url)` during this call. -/
def leastLoadedPass (load : String → Option ℚ) :
    List String → WithTop ℚ → List String → WithTop ℚ × List String
  | [], min_load, least_loaded => (min_load, least_loaded)
  | server_url :: rest, min_load, least_loaded =>
    match load server_url with
    | none => leastLoadedPass load rest min_load least_loaded
    | some server_load =>
      if (server_load : WithTop ℚ) < min_load then
        leastLoadedPass load rest (server_load : WithTop ℚ) [server_url]
      else if (server_load : WithTop ℚ) = min_load then
        leastLoadedPass load rest min_load (least_loaded ++ [server_url])
      else
        leastLoadedPass load rest min_load least_loaded

/-- Second pass of `vllmComposer.get_least_utilized_server`
(vllmComposer.py:299-319): among the least-loaded servers, return the first one
that was never utilized, otherwise the first one with the strictly largest
`now - last_utilization` (accumulator starts at `-1`); URLs without a registry
entry are skipped. -/
def lruPass (servers : List Server) (now : Int) :
    List String → Int → Option String → Option String
  | [], _, selected_server => selected_server
  | server_url :: rest, least_recent_utilization, selected_server =>
    match servers.find? (fun s => s.url == server_url) with
    | none => lruPass servers now rest least_recent_utilization selected_server
    | some server_entry =>
      match server_entry.last_utilization with
      | none => some server_url
      | some t =>
        let time_since_utilization := now - t
        if least_recent_utilization < time_since_utilization then
          lruPass servers now rest time_since_utilization (some server_url)
        else
          lruPass servers now rest least_recent_utilization selected_server

/-- `vllmComposer.get_least_utilized_server` (vllmComposer.py:280-319). -/
def get_least_utilized_server (st : ComposerState) (now : Int)
    (load : String → Option ℚ) (compatible_servers : List String) : Option String :=
  let r := leastLoadedPass load compatible_servers ⊤ []
  match r.snd with
  | [] => none
  | _ :: _ => lruPass st.servers now r.snd (-1) none

/-- Modelled from the spec: §4.2 `mark_utilization(url, timestamp)` of the
current dispatcher (the `create_app`-style `middleware/app.py` that the
tests load is absent from src/): set the chosen backend's
`last_utilization`. -/
def mark_utilization (st : ComposerState) (server_url : String) (now : Int) :
    ComposerState :=
  { st with
    servers := st.servers.map (fun s =>
      if s.url == server_url then { s with last_utilization := some now } else s) }

/-- Modelled from the spec: §4.7 steps 7-8 of the current dispatcher
(`middleware/app.py`, absent from src/): select the backend with
`get_least_utilized_server` and stamp `last_utilization = now` on it before the
outbound forward begins. -/
def dispatch (st : ComposerState) (now : Int) (load : String → Option ℚ)
    (compatible_servers : List String) : Option String × ComposerState :=
  match get_least_utilized_server st now load compatible_servers with
  | none => (none, st)
  | some server_url => (some server_url, mark_utilization st server_url now)

/-- Python's `str.lower()` as used on (ASCII) HTTP header names. -/
def lowerStr (s : String) : String := ⟨s.data.map Char.toLower⟩

/-- Case-insensitive header lookup in an association-list model of an HTTP
header mapping (first match wins). -/
def headerLookup (hs : List (String × String)) (k : String) : Option String :=
  (hs.find? (fun kv => lowerStr kv.fst == lowerStr k)).map Prod.snd

/-- Outbound header construction of `proxy_request`, step 6
(src/middleware/app.py:338-341): drop every inbound `authorization` header
(case-insensitively) and set `Authorization: Bearer <vllm_token>`. -/
def proxy_headers (inbound : List (String × String)) (vllm_token : String) :
    List (String × String) :=
  inbound.filter (fun kv => !(lowerStr kv.fst == "authorization"))
    ++ [("Authorization", "Bearer " ++ vllm_token)]

/-- Modelled from the spec: the `Accept-Encoding` negotiation of §4.7 step 9 of
the current dispatcher (`middleware/app.py`, absent from src/): keep the
client's value when it is `gzip` or `gzip, deflate`, force `gzip` otherwise
(also when the client sent none). -/
def acceptEncodingValue (inbound : List (String × String)) : String :=
  match headerLookup inbound "accept-encoding" with
  | some v => if v == "gzip" || v == "gzip, deflate" then v else "gzip"
  | none => "gzip"

/-- Modelled from the spec: §4.7 step 9 of the current dispatcher
(`middleware/app.py`, absent from src/): copy all inbound headers except
`content-length`, `authorization`, `api-key` and `accept-encoding`; add
`Authorization: Bearer <vllm_token>` and the negotiated `Accept-Encoding`. -/
def outbound_headers (inbound : List (String × String)) (vllm_token : String) :
    List (String × String) :=
  inbound.filter (fun kv =>
    !(lowerStr kv.fst == "content-length") && !(lowerStr kv.fst == "authorization")
      && !(lowerStr kv.fst == "api-key") && !(lowerStr kv.fst == "accept-encoding"))
    ++ [("Authorization", "Bearer " ++ vllm_token),
        ("Accept-Encoding", acceptEncodingValue inbound)]

/-- One formatted entry of the `/v1/models` aggregation
(vllmComposer.py:352-358). -/
structure FormattedModel where
  id : String
  object : String
  created : Int
  owned_by : String
deriving DecidableEq, Repr

/-- Loop body of the deduplication in `handle_models_request`
(vllmComposer.py:344-358): Python's insertion-ordered dict `formatted_models`
is an association list keyed by model id. -/
def formatStep (model_owner : String) (formatted : List FormattedModel)
    (model : ModelInfo) : List FormattedModel :=
  if formatted.any (fun e => e.id == model.id) then
    formatted.map (fun e =>
      if e.id == model.id then { e with created := min e.created model.created } else e)
  else
    formatted ++ [{ id := model.id, object := "model", created := model.created,
                    owned_by := model_owner }]

/-- Deduplication and formatting loop of `handle_models_request`
(vllmComposer.py:343-360). -/
def formatModels (models_data : List ModelInfo) (model_owner : String) :
    List FormattedModel :=
  models_data.foldl (formatStep model_owner) []

/-- Collection loop of `handle_models_request` (vllmComposer.py:327-338):
iterate the registry, skip servers whose `allowed_groups` miss the user's group
(short-circuit: `is_server_healthy` is not called then) or that are unhealthy,
and gather `get_model_on_server` results, threading the composer state. -/
def collectModels (now : Int) (user_group : String)
    (fetch : String → Option (List ModelInfo)) :
    List Server → ComposerState → List ModelInfo × ComposerState
  | [], st => ([], st)
  | server :: rest, st =>
    if user_group ∈ server.allowed_groups then
      let r := is_server_healthy st now server.url
      if r.fst then
        let m := get_model_on_server r.snd now server.url (fetch server.url)
        let tail := collectModels now user_group fetch rest m.snd
        match m.fst with
        | some server_models => (server_models :: tail.fst, tail.snd)
        | none => tail
      else collectModels now user_group fetch rest r.snd
    else collectModels now user_group fetch rest st

/-- The JSON body returned by `handle_models_request`
(vllmComposer.py:361): `{"object": "list", "data": models_list}`. -/
structure ModelsResponse where
  object : String
  data : List FormattedModel
deriving DecidableEq, Repr

/-- `vllmComposer.handle_models_request` (vllmComposer.py:321-361), with the
per-backend model fetches abstracted by `fetch` as in `get_model_on_server`. -/
def handle_models_request (st : ComposerState) (now : Int) (user_group : String)
    (fetch : String → Option (List ModelInfo)) : ModelsResponse × ComposerState :=
  let r := collectModels now user_group fetch st.servers st
  ({ object := "list", data := formatModels r.fst st.model_owner }, r.snd)

/-- A composer state over a given registry, as `load_config` leaves it: every
server healthy, no failures, no open breakers, empty caches,
`max_failures = 3`, `cooldown_period = 300` seconds. -/
def baseState (servers : List Server) : ComposerState :=
  { servers := servers
    server_health := fun u =>
      if (servers.map Server.url).contains u then
        some { healthy := true, last_checked := none }
      else none
    failure_counts := fun _ => 0
    circuit_breaker_timeout := fun _ => none
    max_failures := 3
    cooldown_period := 300
    metrics_cache := fun _ => none
    model_cache := fun _ => none
    model_owner := "owner"
    vllm_token := "vtok" }

/-- Registry with a single backend, never utilized. -/
def oneServer : Server :=
  { url := "http://h:8000", allowed_groups := ["g"], last_utilization := none }

/-- State used for concrete evaluations: one healthy backend. -/
def exState : ComposerState := baseState [oneServer]

/-- `exState` after two probe failures at times `0` and `1`: failure count 2,
one short of `max_failures = 3`. -/
def exState2 : ComposerState :=
  handle_server_failure (handle_server_failure exState 0 "http://h:8000") 1 "http://h:8000"

/-- `exState` after three probe failures at times `0`, `1` and `2`: the third
one crosses `max_failures`, opening the breaker until `2 + 300 = 302`. -/
def exState3 : ComposerState := handle_server_failure exState2 2 "http://h:8000"

/-- Lookup of one formatted entry by model id in the association-list model of
Python's `formatted_models` dict. -/
def findFM (l : List FormattedModel) (i : String) : Option FormattedModel :=
  l.find? (fun e => e.id == i)

/-- The minimum `created` value among the models of a list carrying a given id
(`none` when no model carries it): the value `handle_models_request` keeps for
that id. -/
def minCreated : List ModelInfo → String → Option Int
  | [], _ => none
  | m :: rest, i =>
    if m.id = i then
      match minCreated rest i with
      | some c => some (min m.created c)
      | none => some m.created
    else minCreated rest i

/-- The minimum of the loads reported for a list of URLs, in `WithTop ℚ`
(`⊤` is Python's `float('inf')`, the initial `min_load`). -/
def minW (load : String → Option ℚ) : List String → WithTop ℚ
  | [] => ⊤
  | u :: rest =>
    match load u with
    | some l => min (l : WithTop ℚ) (minW load rest)
    | none => minW load rest

/-- Whether a URL reports exactly the load `m` (`false` for URLs whose probe
returned `None`). -/
def loadIs (load : String → Option ℚ) (m : WithTop ℚ) (u : String) : Bool :=
  match load u with
  | some l => decide ((l : WithTop ℚ) = m)
  | none => false

end VllmComposer

namespace VllmComposer

@[simp] theorem setKey_same {α : Type} (f : String → α) (k : String) (v : α) :
    setKey f k v k = v := by simp [setKey]

@[simp] theorem setKey_other {α : Type} (f : String → α) (k k' : String) (v : α)
    (h : k' ≠ k) : setKey f k v k' = f k' := by simp [setKey, h]

/-- Whatever the breaker decides, `check_circuit_breaker` leaves the registry,
health map and both caches untouched. -/
theorem check_cb_frame (st : ComposerState) (now : Int) (url : String) :
    (check_circuit_breaker st now url).snd.servers = st.servers ∧
    (check_circuit_breaker st now url).snd.server_health = st.server_health ∧
    (check_circuit_breaker st now url).snd.metrics_cache = st.metrics_cache ∧
    (check_circuit_breaker st now url).snd.model_cache = st.model_cache ∧
    (check_circuit_breaker st now url).snd.max_failures = st.max_failures ∧
    (check_circuit_breaker st now url).snd.cooldown_period = st.cooldown_period := by
  unfold check_circuit_breaker
  cases st.circuit_breaker_timeout url with
  | none => exact ⟨rfl, rfl, rfl, rfl, rfl, rfl⟩
  | some t =>
    by_cases hlt : now < t <;> simp [hlt]

/-- `check_circuit_breaker` can only reset a failure count, never raise it. -/
theorem check_cb_fc_le (st : ComposerState) (now : Int) (url u : String) :
    (check_circuit_breaker st now url).snd.failure_counts u ≤ st.failure_counts u := by
  unfold check_circuit_breaker
  cases st.circuit_breaker_timeout url with
  | none => exact le_refl _
  | some t =>
    by_cases hlt : now < t
    · simp [hlt]
    · simp only [hlt, if_false]
      by_cases hu : u = url
      · subst hu; simp [setKey]
      · simp [setKey, hu]

/-- When `check_circuit_breaker` answers `true`, the breaker entry for the URL
is gone from the resulting state. -/
theorem check_cb_true_cbt (st : ComposerState) (now : Int) (url : String)
    (h : (check_circuit_breaker st now url).fst = true) :
    (check_circuit_breaker st now url).snd.circuit_breaker_timeout url = none := by
  unfold check_circuit_breaker at *
  cases hx : st.circuit_breaker_timeout url with
  | none => exact hx
  | some t =>
    rw [hx] at h
    by_cases hlt : now < t
    · simp [hlt] at h
    · simp [hlt, setKey]

/-- `is_server_healthy` passes along exactly the state produced by
`check_circuit_breaker`. -/
theorem is_server_healthy_snd (st : ComposerState) (now : Int) (url : String) :
    (is_server_healthy st now url).snd = (check_circuit_breaker st now url).snd := by
  unfold is_server_healthy
  by_cases h : (check_circuit_breaker st now url).fst <;> simp [h]

/-- When `is_server_healthy` answers `true`, so did `check_circuit_breaker`. -/
theorem is_server_healthy_true_cb (st : ComposerState) (now : Int) (url : String)
    (h : (is_server_healthy st now url).fst = true) :
    (check_circuit_breaker st now url).fst = true := by
  unfold is_server_healthy at h
  by_cases hc : (check_circuit_breaker st now url).fst
  · exact hc
  · simp [hc] at h

/-- Claim C5: once the consecutive failure count reaches `max_failures` — which
makes `handle_server_failure` set `circuit_open_until = now + cooldown_period` —
`is_server_healthy` returns `false` at every instant before that deadline. -/
theorem C5_breaker_blocks (st : ComposerState) (now : Int) (url : String)
    (hth : st.max_failures ≤ st.failure_counts url + 1)
    (now' : Int) (hlt : now' < now + st.cooldown_period) :
    (is_server_healthy (handle_server_failure st now url) now' url).fst = false := by
  have hcbt : (handle_server_failure st now url).circuit_breaker_timeout url
      = some (now + st.cooldown_period) := by
    unfold handle_server_failure update_server_health
    simp [hth, setKey]
  unfold is_server_healthy check_circuit_breaker
  rw [hcbt]
  simp [hlt]

/-- Witness for C5 at a concrete state: the third failure of the single backend
of `exState2` opens the breaker at `2 + 300`, and at time `100` the backend is
reported unhealthy. -/
theorem C5_breaker_blocks_witness :
    exState2.max_failures ≤ exState2.failure_counts "http://h:8000" + 1 ∧
    (100 : Int) < 2 + exState2.cooldown_period ∧
    (is_server_healthy (handle_server_failure exState2 2 "http://h:8000") 100
      "http://h:8000").fst = false :=
  ⟨by decide, by decide,
    C5_breaker_blocks exState2 2 "http://h:8000" (by decide) 100 (by decide)⟩

/-- Claim C10: calling `is_server_healthy` on a backend whose breaker timestamp
has passed mutates the state: the `circuit_breaker_timeout` entry is deleted
and the failure count reset to zero (with no successful probe required), while
the returned value is the stored `healthy` flag and everything else — other
URLs' breaker and failure records, the health map, both caches and the
registry — is untouched. -/
theorem C10_expired_breaker_cleanup (st : ComposerState) (now T : Int) (url : String)
    (hT : st.circuit_breaker_timeout url = some T) (hle : T ≤ now) :
    (is_server_healthy st now url).fst
      = ((st.server_health url).getD { healthy := true, last_checked := none }).healthy ∧
    (is_server_healthy st now url).snd.circuit_breaker_timeout url = none ∧
    (is_server_healthy st now url).snd.failure_counts url = 0 ∧
    (∀ u, u ≠ url →
      (is_server_healthy st now url).snd.circuit_breaker_timeout u
        = st.circuit_breaker_timeout u) ∧
    (∀ u, u ≠ url →
      (is_server_healthy st now url).snd.failure_counts u = st.failure_counts u) ∧
    (is_server_healthy st now url).snd.server_health = st.server_health ∧
    (is_server_healthy st now url).snd.metrics_cache = st.metrics_cache ∧
    (is_server_healthy st now url).snd.model_cache = st.model_cache ∧
    (is_server_healthy st now url).snd.servers = st.servers := by
  have hnlt : ¬ now < T := not_lt.mpr hle
  unfold is_server_healthy check_circuit_breaker
  rw [hT]
  refine ⟨?_, ?_, ?_, ?_, ?_, ?_, ?_, ?_, ?_⟩
  · simp [hnlt]
  · simp [hnlt, setKey]
  · simp [hnlt, setKey]
  · intro u hu; simp [hnlt, setKey, hu]
  · intro u hu; simp [hnlt, setKey, hu]
  · simp [hnlt]
  · simp [hnlt]
  · simp [hnlt]
  · simp [hnlt]

/-- Witness for C10: in `exState3` the breaker is open until `302`; querying at
`400` deletes the entry and zeroes the failure count. -/
theorem C10_expired_breaker_cleanup_witness :
    exState3.circuit_breaker_timeout "http://h:8000" = some 302 ∧
    (302 : Int) ≤ 400 ∧
    (is_server_healthy exState3 400 "http://h:8000").snd.circuit_breaker_timeout
      "http://h:8000" = none ∧
    (is_server_healthy exState3 400 "http://h:8000").snd.failure_counts
      "http://h:8000" = 0 :=
  ⟨by decide, by decide,
    (C10_expired_breaker_cleanup exState3 400 302 "http://h:8000" (by decide)
      (by decide)).2.1,
    (C10_expired_breaker_cleanup exState3 400 302 "http://h:8000" (by decide)
      (by decide)).2.2.1⟩

/-- Claim C9: a successful `/v1/models` probe whose `data` array is empty (or
absent, which parses to the empty array) caches nothing, leaves the health map
alone, never increments the failure count, and returns none. -/
theorem C9_empty_data (st : ComposerState) (now : Int) (url : String)
    (hok : (is_server_healthy st now url).fst = true)
    (hmiss : (is_server_healthy st now url).snd.model_cache url = none) :
    (get_model_on_server st now url (some [])).fst = none ∧
    (get_model_on_server st now url (some [])).snd.model_cache = st.model_cache ∧
    (get_model_on_server st now url (some [])).snd.server_health = st.server_health ∧
    (get_model_on_server st now url (some [])).snd.metrics_cache = st.metrics_cache ∧
    (get_model_on_server st now url (some [])).snd.failure_counts url
      ≤ st.failure_counts url := by
  have hsnd := is_server_healthy_snd st now url
  have hframe := check_cb_frame st now url
  have hfc := check_cb_fc_le st now url url
  unfold get_model_on_server
  rw [if_pos hok, hmiss]
  refine ⟨rfl, ?_, ?_, ?_, ?_⟩
  · show (is_server_healthy st now url).snd.model_cache = st.model_cache
    rw [hsnd]; exact hframe.2.2.2.1
  · show (is_server_healthy st now url).snd.server_health = st.server_health
    rw [hsnd]; exact hframe.2.1
  · show (is_server_healthy st now url).snd.metrics_cache = st.metrics_cache
    rw [hsnd]; exact hframe.2.2.1
  · show (is_server_healthy st now url).snd.failure_counts url ≤ st.failure_counts url
    rw [hsnd]; exact hfc

/-- Claim C7: the fetch-success paths of `get_server_load` and
`get_model_on_server` (the `record_success` of the spec) reset the backend's
failure count to zero, set `healthy = true`, stamp `last_checked = now`, and
leave it with no breaker timestamp. -/
theorem C7_success_resets (st : ComposerState) (now : Int) (url : String)
    (hok : (is_server_healthy st now url).fst = true)
    (v : ℚ) (m : ModelInfo) (ms : List ModelInfo)
    (hm1 : (is_server_healthy st now url).snd.metrics_cache url = none)
    (hm2 : (is_server_healthy st now url).snd.model_cache url = none) :
    ((get_server_load st now url (some v)).fst = some v ∧
      (get_server_load st now url (some v)).snd.failure_counts url = 0 ∧
      (get_server_load st now url (some v)).snd.server_health url
        = some { healthy := true, last_checked := some now } ∧
      (get_server_load st now url (some v)).snd.circuit_breaker_timeout url = none) ∧
    ((get_model_on_server st now url (some (m :: ms))).fst = some m ∧
      (get_model_on_server st now url (some (m :: ms))).snd.failure_counts url = 0 ∧
      (get_model_on_server st now url (some (m :: ms))).snd.server_health url
        = some { healthy := true, last_checked := some now } ∧
      (get_model_on_server st now url (some (m :: ms))).snd.circuit_breaker_timeout url
        = none) := by
  have hcb : (check_circuit_breaker st now url).fst = true :=
    is_server_healthy_true_cb st now url hok
  have hcbt : (is_server_healthy st now url).snd.circuit_breaker_timeout url = none := by
    rw [is_server_healthy_snd]; exact check_cb_true_cbt st now url hcb
  constructor
  · unfold get_server_load
    rw [if_pos hok, hm1]
    unfold update_server_health
    refine ⟨rfl, by simp [setKey], by simp [setKey], ?_⟩
    · show (is_server_healthy st now url).snd.circuit_breaker_timeout url = none
      exact hcbt
  · unfold get_model_on_server
    rw [if_pos hok, hm2]
    unfold update_server_health
    refine ⟨rfl, by simp [setKey], by simp [setKey], ?_⟩
    · show (is_server_healthy st now url).snd.circuit_breaker_timeout url = none
      exact hcbt

/-- Witness for C7 at the healthy one-backend state `exState`. -/
theorem C7_success_resets_witness :
    (is_server_healthy exState 7 "http://h:8000").fst = true ∧
    (get_server_load exState 7 "http://h:8000" (some 3)).snd.failure_counts
      "http://h:8000" = 0 ∧
    (get_model_on_server exState 7 "http://h:8000"
        (some [{ id := "m", created := 5 }])).snd.server_health "http://h:8000"
      = some { healthy := true, last_checked := some 7 } :=
  ⟨by decide,
    ((C7_success_resets exState 7 "http://h:8000" (by decide) 3
        { id := "m", created := 5 } [] (by decide) (by decide)).1).2.1,
    ((C7_success_resets exState 7 "http://h:8000" (by decide) 3
        { id := "m", created := 5 } [] (by decide) (by decide)).2).2.2.1⟩

/-- Claim C1 (code bug): after the breaker of the single backend of `exState3`
opened at `302`, waiting past the cooldown does NOT make the backend eligible
again: `is_server_healthy` at time `400` still answers `false`, because
`handle_server_failure` left `healthy = false` and nothing but a successful
probe — itself gated on `is_server_healthy` — can reset that flag.  Moreover,
after that call has silently reset the failure count, a single further failure
(at time `401`) does not reopen the breaker. -/
theorem C1_cooldown_no_recovery :
    exState3.circuit_breaker_timeout "http://h:8000" = some 302 ∧
    (is_server_healthy exState3 400 "http://h:8000").fst = false ∧
    (handle_server_failure ((is_server_healthy exState3 400 "http://h:8000").snd) 401
        "http://h:8000").circuit_breaker_timeout "http://h:8000" = none := by
  decide

/-- Witness for C9 at the healthy one-backend state `exState`. -/
theorem C9_empty_data_witness :
    (is_server_healthy exState 5 "http://h:8000").fst = true ∧
    (get_model_on_server exState 5 "http://h:8000" (some [])).fst = none ∧
    (get_model_on_server exState 5 "http://h:8000" (some [])).snd.failure_counts
      "http://h:8000" ≤ exState.failure_counts "http://h:8000" :=
  ⟨by decide,
    (C9_empty_data exState 5 "http://h:8000" (by decide) (by decide)).1,
    (C9_empty_data exState 5 "http://h:8000" (by decide) (by decide)).2.2.2.2⟩

/-- Claim C4: the outbound `Authorization` header built by `proxy_request`
step 6 always equals `Bearer <vllm_token>`, and never equals the inbound
client's bearer token (which, tokens being plain strings without the
`Bearer `-prefix, cannot coincide with it). -/
theorem C4_auth_rewrite (inbound : List (String × String)) (vllm_token user_token : String)
    (h : user_token ≠ "Bearer " ++ vllm_token) :
    headerLookup (proxy_headers inbound vllm_token) "Authorization"
      = some ("Bearer " ++ vllm_token) ∧
    headerLookup (proxy_headers inbound vllm_token) "Authorization" ≠ some user_token := by
  have key : headerLookup (proxy_headers inbound vllm_token) "Authorization"
      = some ("Bearer " ++ vllm_token) := by
    unfold headerLookup proxy_headers
    rw [List.find?_append]
    have h1 : (inbound.filter fun kv => !(lowerStr kv.fst == "authorization")).find?
        (fun kv => lowerStr kv.fst == lowerStr "Authorization") = none := by
      rw [List.find?_eq_none]
      intro kv hkv hp
      rw [List.mem_filter] at hkv
      have h2 := hkv.2
      rw [Bool.not_eq_true', beq_eq_false_iff_ne] at h2
      rw [beq_iff_eq] at hp
      exact h2 (hp.trans (by decide))
    rw [h1, Option.none_or]
    rw [List.find?_cons_of_pos _ (by simp)]
    rfl
  refine ⟨key, ?_⟩
  rw [key]
  simp only [ne_eq, Option.some.injEq]
  intro hc
  exact h hc.symm

/-- Witness for C4 on a concrete request whose client token is `usertok`. -/
theorem C4_auth_rewrite_witness :
    ("usertok" : String) ≠ "Bearer " ++ "vtok" ∧
    headerLookup (proxy_headers [("Authorization", "Bearer usertok"),
        ("Content-Type", "application/json")] "vtok") "Authorization"
      = some ("Bearer " ++ "vtok") :=
  ⟨by decide,
    (C4_auth_rewrite [("Authorization", "Bearer usertok"),
        ("Content-Type", "application/json")] "vtok" "usertok" (by decide)).1⟩

/-- The filtered part of `outbound_headers` holds no header whose lowercased
name is one of the four stripped ones. -/
theorem find?_stripped_none (inbound : List (String × String)) (target : String)
    (ht : target = "content-length" ∨ target = "authorization" ∨ target = "api-key"
      ∨ target = "accept-encoding") :
    (inbound.filter fun kv =>
      !(lowerStr kv.fst == "content-length") && !(lowerStr kv.fst == "authorization")
        && !(lowerStr kv.fst == "api-key")
        && !(lowerStr kv.fst == "accept-encoding")).find?
      (fun kv => lowerStr kv.fst == target) = none := by
  rw [List.find?_eq_none]
  intro kv hkv hp
  rw [List.mem_filter] at hkv
  have h2 := hkv.2
  rw [beq_iff_eq] at hp
  rcases ht with rfl | rfl | rfl | rfl <;> simp [hp] at h2

/-- Filtering with a predicate that every `find?`-match satisfies does not
change the result of `find?`. -/
theorem find?_filter_of_imp {α : Type} (p q : α → Bool) (l : List α)
    (h : ∀ x, q x = true → p x = true) : (l.filter p).find? q = l.find? q := by
  induction l with
  | nil => rfl
  | cons a l ih =>
    by_cases hq : q a = true
    · rw [List.filter_cons_of_pos (h a hq), List.find?_cons_of_pos _ hq,
        List.find?_cons_of_pos _ hq]
    · by_cases hp : p a = true
      · rw [List.filter_cons_of_pos hp, List.find?_cons_of_neg _ hq,
          List.find?_cons_of_neg _ hq, ih]
      · rw [List.filter_cons_of_neg (by simpa using hp), List.find?_cons_of_neg _ hq, ih]

/-- Dropping a prefix in which no header name matches leaves `headerLookup`
looking at the suffix. -/
theorem headerLookup_append (l₁ l₂ : List (String × String)) (key : String)
    (h : l₁.find? (fun kv => lowerStr kv.fst == lowerStr key) = none) :
    headerLookup (l₁ ++ l₂) key = headerLookup l₂ key := by
  unfold headerLookup
  rw [List.find?_append, h, Option.none_or]

/-- `headerLookup` skips a non-matching head entry. -/
theorem headerLookup_cons_skip (a : String × String) (tl : List (String × String))
    (key : String) (h : (lowerStr a.fst == lowerStr key) = false) :
    headerLookup (a :: tl) key = headerLookup tl key := by
  unfold headerLookup
  rw [List.find?_cons_of_neg _ (by simp [h])]

/-- `headerLookup` returns the value of a matching head entry. -/
theorem headerLookup_cons_hit (a : String × String) (tl : List (String × String))
    (key : String) (h : (lowerStr a.fst == lowerStr key) = true) :
    headerLookup (a :: tl) key = some a.snd := by
  unfold headerLookup
  rw [List.find?_cons_of_pos _ (by exact h)]
  rfl

/-- Claim C6: the outbound headers of the dispatcher (modelled from the spec,
§4.7 step 9) carry `Authorization: Bearer <vllm_token>`, no `Content-Length`
and no `Api-Key`; `Accept-Encoding` keeps the client's value exactly when it is
`gzip` or `gzip, deflate` and is forced to `gzip` otherwise; every other header
is passed through unchanged. -/
theorem C6_outbound_headers (inbound : List (String × String)) (vllm_token : String)
    (k : String)
    (hk1 : lowerStr k ≠ "content-length") (hk2 : lowerStr k ≠ "authorization")
    (hk3 : lowerStr k ≠ "api-key") (hk4 : lowerStr k ≠ "accept-encoding") :
    headerLookup (outbound_headers inbound vllm_token) "Authorization"
      = some ("Bearer " ++ vllm_token) ∧
    headerLookup (outbound_headers inbound vllm_token) "Content-Length" = none ∧
    headerLookup (outbound_headers inbound vllm_token) "Api-Key" = none ∧
    (∀ v, headerLookup inbound "accept-encoding" = some v →
      (v = "gzip" ∨ v = "gzip, deflate") →
      headerLookup (outbound_headers inbound vllm_token) "Accept-Encoding" = some v) ∧
    (∀ v, headerLookup inbound "accept-encoding" = some v →
      v ≠ "gzip" → v ≠ "gzip, deflate" →
      headerLookup (outbound_headers inbound vllm_token) "Accept-Encoding" = some "gzip") ∧
    (headerLookup inbound "accept-encoding" = none →
      headerLookup (outbound_headers inbound vllm_token) "Accept-Encoding" = some "gzip") ∧
    headerLookup (outbound_headers inbound vllm_token) k = headerLookup inbound k := by
  have eAuth : lowerStr "Authorization" = "authorization" := by decide
  have eAE : lowerStr "Accept-Encoding" = "accept-encoding" := by decide
  have hAEval : headerLookup (outbound_headers inbound vllm_token) "Accept-Encoding"
      = some (acceptEncodingValue inbound) := by
    unfold outbound_headers
    rw [headerLookup_append _ _ _
        (by rw [eAE]
            exact find?_stripped_none inbound "accept-encoding"
              (Or.inr (Or.inr (Or.inr rfl)))),
      headerLookup_cons_skip _ _ _
        (by show (lowerStr "Authorization" == lowerStr "Accept-Encoding") = false
            decide),
      headerLookup_cons_hit _ _ _
        (by show (lowerStr "Accept-Encoding" == lowerStr "Accept-Encoding") = true
            decide)]
  refine ⟨?_, ?_, ?_, ?_, ?_, ?_, ?_⟩
  · unfold outbound_headers
    rw [headerLookup_append _ _ _
        (by rw [eAuth]
            exact find?_stripped_none inbound "authorization" (Or.inr (Or.inl rfl))),
      headerLookup_cons_hit _ _ _
        (by show (lowerStr "Authorization" == lowerStr "Authorization") = true
            decide)]
  · unfold outbound_headers
    rw [headerLookup_append _ _ _
        (by rw [(by decide : lowerStr "Content-Length" = "content-length")]
            exact find?_stripped_none inbound "content-length" (Or.inl rfl)),
      headerLookup_cons_skip _ _ _
        (by show (lowerStr "Authorization" == lowerStr "Content-Length") = false
            decide),
      headerLookup_cons_skip _ _ _
        (by show (lowerStr "Accept-Encoding" == lowerStr "Content-Length") = false
            decide)]
    rfl
  · unfold outbound_headers
    rw [headerLookup_append _ _ _
        (by rw [(by decide : lowerStr "Api-Key" = "api-key")]
            exact find?_stripped_none inbound "api-key" (Or.inr (Or.inr (Or.inl rfl)))),
      headerLookup_cons_skip _ _ _
        (by show (lowerStr "Authorization" == lowerStr "Api-Key") = false
            decide),
      headerLookup_cons_skip _ _ _
        (by show (lowerStr "Accept-Encoding" == lowerStr "Api-Key") = false
            decide)]
    rfl
  · intro v hv hgz
    rw [hAEval]
    unfold acceptEncodingValue
    rw [hv]
    rcases hgz with rfl | rfl <;> simp
  · intro v hv h1 h2
    rw [hAEval]
    unfold acceptEncodingValue
    rw [hv]
    simp [h1, h2]
  · intro hnone
    rw [hAEval]
    unfold acceptEncodingValue
    rw [hnone]
  · have n1 : (lowerStr "Authorization" == lowerStr k) = false := by
      rw [beq_eq_false_iff_ne, eAuth]
      intro hcontra
      exact hk2 hcontra.symm
    have n2 : (lowerStr "Accept-Encoding" == lowerStr k) = false := by
      rw [beq_eq_false_iff_ne, eAE]
      intro hcontra
      exact hk4 hcontra.symm
    unfold outbound_headers
    have hkeep : (inbound.filter fun kv =>
        !(lowerStr kv.fst == "content-length") && !(lowerStr kv.fst == "authorization")
          && !(lowerStr kv.fst == "api-key")
          && !(lowerStr kv.fst == "accept-encoding")).find?
        (fun kv => lowerStr kv.fst == lowerStr k)
        = inbound.find? (fun kv => lowerStr kv.fst == lowerStr k) := by
      apply find?_filter_of_imp
      intro kv hq
      rw [beq_iff_eq] at hq
      simp [hq, hk1, hk2, hk3, hk4]
    unfold headerLookup
    rw [List.find?_append, hkeep,
      List.find?_cons_of_neg _ (by simp [n1]),
      List.find?_cons_of_neg _ (by simp [n2])]
    simp

/-- Witness for C6: a concrete request carrying all four stripped headers plus
a pass-through `X-Trace` header. -/
theorem C6_outbound_headers_witness :
    lowerStr "X-Trace" ≠ "authorization" ∧
    headerLookup (outbound_headers [("Content-Length", "42"),
        ("Authorization", "Bearer u"), ("Api-Key", "z"),
        ("Accept-Encoding", "br"), ("X-Trace", "t")] "vtok") "Authorization"
      = some ("Bearer " ++ "vtok") ∧
    headerLookup (outbound_headers [("Content-Length", "42"),
        ("Authorization", "Bearer u"), ("Api-Key", "z"),
        ("Accept-Encoding", "br"), ("X-Trace", "t")] "vtok") "X-Trace"
      = headerLookup [("Content-Length", "42"), ("Authorization", "Bearer u"),
          ("Api-Key", "z"), ("Accept-Encoding", "br"), ("X-Trace", "t")] "X-Trace" :=
  ⟨by decide,
    (C6_outbound_headers [("Content-Length", "42"), ("Authorization", "Bearer u"),
        ("Api-Key", "z"), ("Accept-Encoding", "br"), ("X-Trace", "t")] "vtok"
        "X-Trace" (by decide) (by decide) (by decide) (by decide)).1,
    (C6_outbound_headers [("Content-Length", "42"), ("Authorization", "Bearer u"),
        ("Api-Key", "z"), ("Accept-Encoding", "br"), ("X-Trace", "t")] "vtok"
        "X-Trace" (by decide) (by decide) (by decide)
        (by decide)).2.2.2.2.2.2⟩

/-- `formatStep` keeps model ids duplicate-free. -/
theorem formatStep_nodup (o : String) (acc : List FormattedModel) (m : ModelInfo)
    (h : (acc.map FormattedModel.id).Nodup) :
    ((formatStep o acc m).map FormattedModel.id).Nodup := by
  unfold formatStep
  by_cases hmem : acc.any (fun e => e.id == m.id)
  · rw [if_pos hmem]
    have hmap : (acc.map (fun e =>
        if e.id == m.id then { e with created := min e.created m.created } else e)).map
          FormattedModel.id = acc.map FormattedModel.id := by
      rw [List.map_map]
      apply List.map_congr_left
      intro e _
      by_cases he : e.id = m.id <;> simp [he]
    rw [hmap]
    exact h
  · rw [if_neg hmem]
    rw [List.map_append]
    rw [List.nodup_append]
    refine ⟨h, List.nodup_singleton _, ?_⟩
    intro x hx hx2
    simp only [List.map_cons, List.map_nil, List.mem_singleton] at hx2
    subst hx2
    rw [List.mem_map] at hx
    obtain ⟨e, he, hei⟩ := hx
    rw [List.any_eq_true] at hmem
    exact hmem ⟨e, he, by rw [beq_iff_eq]; exact hei⟩

/-- Predicate-congruence for `find?`. -/
theorem find?_congr_pred {α : Type} (p q : α → Bool) (l : List α)
    (h : ∀ a, p a = q a) : l.find? p = l.find? q := by
  induction l with
  | nil => rfl
  | cons a tl ih =>
    by_cases hq : q a = true
    · rw [List.find?_cons_of_pos _ (by rw [h a]; exact hq),
        List.find?_cons_of_pos _ hq]
    · rw [List.find?_cons_of_neg _ (by rw [h a]; exact hq),
        List.find?_cons_of_neg _ hq, ih]

/-- `find?` by id commutes with mapping an id-preserving update over the
list. -/
theorem findFM_map_created (acc : List FormattedModel)
    (g : FormattedModel → FormattedModel) (hg : ∀ e, (g e).id = e.id) (i : String) :
    findFM (acc.map g) i = (findFM acc i).map g := by
  unfold findFM
  induction acc with
  | nil => rfl
  | cons a tl ih =>
    by_cases ha : a.id = i
    · rw [List.map_cons,
        List.find?_cons_of_pos _ (by rw [beq_iff_eq, hg a]; exact ha),
        List.find?_cons_of_pos _ (by rw [beq_iff_eq]; exact ha)]
      rfl
    · rw [List.map_cons,
        List.find?_cons_of_neg _ (by rw [beq_iff_eq, hg a]; exact ha),
        List.find?_cons_of_neg _ (by rw [beq_iff_eq]; exact ha), ih]

/-- How one `formatStep` changes the dict entry of an id: the `created` of an
existing entry for `m.id` drops to the minimum with `m.created`, a missing
entry is created from `m`, and other ids are untouched. -/
theorem findFM_formatStep (o : String) (acc : List FormattedModel) (m : ModelInfo)
    (i : String) :
    findFM (formatStep o acc m) i =
      if i = m.id then
        match findFM acc i with
        | some e => some { e with created := min e.created m.created }
        | none => some { id := m.id, object := "model", created := m.created,
                         owned_by := o }
      else findFM acc i := by
  unfold formatStep
  by_cases hmem : acc.any (fun e => e.id == m.id)
  · rw [if_pos hmem]
    rw [findFM_map_created acc _
      (by intro e; by_cases he : e.id = m.id <;> simp [he]) i]
    by_cases him : i = m.id
    · rw [if_pos him]
      have hsome : (findFM acc i).isSome := by
        unfold findFM
        rw [List.find?_isSome]
        rw [List.any_eq_true] at hmem
        obtain ⟨e, he, hei⟩ := hmem
        exact ⟨e, he, by rw [him]; exact hei⟩
      obtain ⟨e, he⟩ := Option.isSome_iff_exists.mp hsome
      rw [he]
      have hei : e.id = i := by
        unfold findFM at he
        have := List.find?_some he
        rwa [beq_iff_eq] at this
      simp [hei, him]
    · rw [if_neg him]
      cases he : findFM acc i with
      | none => rfl
      | some e =>
        have hei : e.id = i := by
          unfold findFM at he
          have := List.find?_some he
          rwa [beq_iff_eq] at this
        simp [hei, him]
  · rw [if_neg hmem]
    unfold findFM
    rw [List.find?_append]
    by_cases him : i = m.id
    · rw [if_pos him]
      have hnone : acc.find? (fun e => e.id == i) = none := by
        rw [List.find?_eq_none]
        intro e he hp
        rw [List.any_eq_true] at hmem
        rw [beq_iff_eq] at hp
        exact hmem ⟨e, he, by rw [beq_iff_eq, hp, him]⟩
      rw [hnone, Option.none_or]
      rw [List.find?_cons_of_pos _ (by rw [beq_iff_eq]; exact him.symm)]
    · rw [if_neg him]
      have htl : ([{ id := m.id, object := "model", created := m.created,
                     owned_by := o }] :
          List FormattedModel).find? (fun e => e.id == i) = none := by
        rw [List.find?_eq_none]
        intro e he hp
        simp only [List.mem_singleton] at he
        subst he
        rw [beq_iff_eq] at hp
        exact him hp.symm
      rw [htl, Option.or_none]

/-- Unfolding equation of `minCreated` on a cons cell. -/
theorem minCreated_cons (m : ModelInfo) (rest : List ModelInfo) (i : String) :
    minCreated (m :: rest) i =
      if m.id = i then
        match minCreated rest i with
        | some c => some (min m.created c)
        | none => some m.created
      else minCreated rest i := rfl

/-- The dict built by the `handle_models_request` fold maps each id to an entry
whose `created` is the minimum over the processed models with that id. -/
theorem findFM_formatModels_fold (o : String) (ms : List ModelInfo) :
    ∀ (acc : List FormattedModel) (i : String),
    findFM (List.foldl (formatStep o) acc ms) i =
      match minCreated ms i with
      | none => findFM acc i
      | some c =>
        match findFM acc i with
        | some e => some { e with created := min e.created c }
        | none => some { id := i, object := "model", created := c, owned_by := o } := by
  induction ms with
  | nil =>
    intro acc i
    rfl
  | cons m rest ih =>
    intro acc i
    rw [List.foldl_cons, ih (formatStep o acc m) i, findFM_formatStep, minCreated_cons]
    by_cases him : i = m.id
    · simp only [if_pos him, if_pos him.symm]
      cases hrest : minCreated rest i with
      | none =>
        cases hacc : findFM acc i with
        | none => simp [him]
        | some e => rfl
      | some c =>
        cases hacc : findFM acc i with
        | none => simp [him, min_assoc]
        | some e => simp [him, min_assoc]
    · simp only [if_neg him, if_neg (show ¬ m.id = i from fun hc => him hc.symm)]

/-- The ids in the `/v1/models` aggregation output are pairwise distinct. -/
theorem formatModels_nodup (ms : List ModelInfo) (o : String) :
    ((formatModels ms o).map FormattedModel.id).Nodup := by
  unfold formatModels
  have hgen : ∀ (acc : List FormattedModel), (acc.map FormattedModel.id).Nodup →
      ((List.foldl (formatStep o) acc ms).map FormattedModel.id).Nodup := by
    induction ms with
    | nil => intro acc h; exact h
    | cons m rest ih =>
      intro acc h
      rw [List.foldl_cons]
      exact ih _ (formatStep_nodup o acc m h)
  exact hgen [] (by simp)

/-- In a list with duplicate-free ids, `findFM` at a member's id returns that
member. -/
theorem findFM_of_mem (l : List FormattedModel) (e : FormattedModel)
    (h : e ∈ l) (hnd : (l.map FormattedModel.id).Nodup) : findFM l e.id = some e := by
  induction l with
  | nil => cases h
  | cons a tl ih =>
    rcases List.mem_cons.mp h with rfl | htl
    · unfold findFM
      rw [List.find?_cons_of_pos _ (by rw [beq_iff_eq])]
    · rw [List.map_cons, List.nodup_cons] at hnd
      have hne : (a.id == e.id) = false := by
        rw [beq_eq_false_iff_ne]
        intro hc
        exact hnd.1 (by rw [hc]; exact List.mem_map_of_mem _ htl)
      unfold findFM
      rw [List.find?_cons_of_neg _ (by simp [hne])]
      exact ih htl hnd.2

/-- `minCreated` answers for every id that some model in the list carries. -/
theorem minCreated_ne_none (ms : List ModelInfo) (i : String) (m' : ModelInfo)
    (hm : m' ∈ ms) (hi : m'.id = i) : minCreated ms i ≠ none := by
  induction ms with
  | nil => cases hm
  | cons a tl ih =>
    rw [minCreated_cons]
    by_cases ha : a.id = i
    · rw [if_pos ha]
      cases minCreated tl i <;> simp
    · rw [if_neg ha]
      rcases List.mem_cons.mp hm with rfl | htl
      · exact absurd hi ha
      · exact ih htl

/-- `minCreated` is an attained lower bound of the `created` values. -/
theorem minCreated_spec (ms : List ModelInfo) (i : String) (c : Int)
    (h : minCreated ms i = some c) :
    (∃ m ∈ ms, m.id = i ∧ m.created = c) ∧
    (∀ m ∈ ms, m.id = i → c ≤ m.created) := by
  induction ms generalizing c with
  | nil => cases h
  | cons m rest ih =>
    unfold minCreated at h
    by_cases him : m.id = i
    · rw [if_pos him] at h
      cases hrest : minCreated rest i with
      | none =>
        rw [hrest] at h
        injection h with h
        subst h
        refine ⟨⟨m, List.mem_cons_self m rest, him, rfl⟩, ?_⟩
        intro m' hm' him'
        rcases List.mem_cons.mp hm' with rfl | htl
        · exact le_refl _
        · exact absurd hrest (minCreated_ne_none rest i m' htl him')
      | some c0 =>
        rw [hrest] at h
        injection h with h
        subst h
        obtain ⟨⟨m0, hm0, hid0, hc0⟩, hbound⟩ := ih c0 hrest
        constructor
        · rcases le_total m.created c0 with hle | hle
          · exact ⟨m, List.mem_cons_self m rest, him, (min_eq_left hle).symm⟩
          · exact ⟨m0, List.mem_cons_of_mem m hm0, hid0,
              by rw [min_eq_right hle]; exact hc0⟩
        · intro m' hm' him'
          rcases List.mem_cons.mp hm' with rfl | htl
          · exact min_le_left _ _
          · exact le_trans (min_le_right _ _) (hbound m' htl him')
    · rw [if_neg him] at h
      obtain ⟨⟨m0, hm0, hid0, hc0⟩, hbound⟩ := ih c h
      refine ⟨⟨m0, List.mem_cons_of_mem m hm0, hid0, hc0⟩, ?_⟩
      intro m' hm' him'
      rcases List.mem_cons.mp hm' with rfl | htl
      · exact absurd him' him
      · exact hbound m' htl him'

/-- Claim C8: `handle_models_request` returns `{"object": "list", "data": ...}`
where each model id occurs at most once, every entry has `object = "model"` and
`owned_by = model_owner`, and each entry's `created` is the minimum `created`
over all models collected from the group-allowed, healthy backends that
reported that id. -/
theorem C8_models_request (st : ComposerState) (now : Int) (user_group : String)
    (fetch : String → Option (List ModelInfo)) :
    (handle_models_request st now user_group fetch).fst.object = "list" ∧
    ((handle_models_request st now user_group fetch).fst.data.map
      FormattedModel.id).Nodup ∧
    ∀ e ∈ (handle_models_request st now user_group fetch).fst.data,
      e.object = "model" ∧ e.owned_by = st.model_owner ∧
      (∃ m ∈ (collectModels now user_group fetch st.servers st).fst,
        m.id = e.id ∧ m.created = e.created) ∧
      (∀ m ∈ (collectModels now user_group fetch st.servers st).fst,
        m.id = e.id → e.created ≤ m.created) := by
  refine ⟨rfl, formatModels_nodup _ _, ?_⟩
  intro e he
  have hnd : (((handle_models_request st now user_group fetch).fst.data).map
      FormattedModel.id).Nodup := formatModels_nodup _ _
  have hfind : findFM (formatModels
      (collectModels now user_group fetch st.servers st).fst st.model_owner) e.id
      = some e := findFM_of_mem _ e he hnd
  rw [formatModels, findFM_formatModels_fold] at hfind
  cases hmc : minCreated (collectModels now user_group fetch st.servers st).fst e.id with
  | none =>
    rw [hmc] at hfind
    cases hfind
  | some c =>
    rw [hmc] at hfind
    have hempty : findFM ([] : List FormattedModel) e.id = none := rfl
    rw [hempty] at hfind
    injection hfind with hfind
    obtain ⟨hx, hb⟩ := minCreated_spec _ _ _ hmc
    have hobj : e.object = "model" := by rw [← hfind]
    have hown : e.owned_by = st.model_owner := by rw [← hfind]
    have hcr : e.created = c := by rw [← hfind]
    have hid : e.id = e.id := rfl
    refine ⟨hobj, hown, ?_, ?_⟩
    · obtain ⟨m, hm, hmi, hmc2⟩ := hx
      exact ⟨m, hm, hmi, by rw [hmc2, hcr]⟩
    · intro m hm hmi
      rw [hcr]
      exact hb m hm hmi

/-- Unfolding equation of `minW` on a cons cell. -/
theorem minW_cons (load : String → Option ℚ) (u : String) (rest : List String) :
    minW load (u :: rest) =
      match load u with
      | some l => min (l : WithTop ℚ) (minW load rest)
      | none => minW load rest := rfl

theorem minW_none (load : String → Option ℚ) (u : String) (rest : List String)
    (hu : load u = none) : minW load (u :: rest) = minW load rest := by
  rw [minW_cons, hu]

theorem minW_some (load : String → Option ℚ) (u : String) (rest : List String)
    (l : ℚ) (hu : load u = some l) :
    minW load (u :: rest) = min (l : WithTop ℚ) (minW load rest) := by
  rw [minW_cons, hu]

/-- Unfolding equation of `leastLoadedPass` on a cons cell. -/
theorem leastLoadedPass_cons (load : String → Option ℚ) (u : String)
    (rest : List String) (m0 : WithTop ℚ) (acc : List String) :
    leastLoadedPass load (u :: rest) m0 acc =
      match load u with
      | none => leastLoadedPass load rest m0 acc
      | some l =>
        if (l : WithTop ℚ) < m0 then leastLoadedPass load rest (l : WithTop ℚ) [u]
        else if (l : WithTop ℚ) = m0 then leastLoadedPass load rest m0 (acc ++ [u])
        else leastLoadedPass load rest m0 acc := rfl

theorem leastLoadedPass_none (load : String → Option ℚ) (u : String)
    (rest : List String) (m0 : WithTop ℚ) (acc : List String)
    (hu : load u = none) :
    leastLoadedPass load (u :: rest) m0 acc = leastLoadedPass load rest m0 acc := by
  rw [leastLoadedPass_cons, hu]

theorem leastLoadedPass_lt (load : String → Option ℚ) (u : String)
    (rest : List String) (m0 : WithTop ℚ) (acc : List String) (l : ℚ)
    (hu : load u = some l) (hlt : (l : WithTop ℚ) < m0) :
    leastLoadedPass load (u :: rest) m0 acc
      = leastLoadedPass load rest (l : WithTop ℚ) [u] := by
  rw [leastLoadedPass_cons, hu]
  show (if (l : WithTop ℚ) < m0 then leastLoadedPass load rest (l : WithTop ℚ) [u]
    else if (l : WithTop ℚ) = m0 then leastLoadedPass load rest m0 (acc ++ [u])
    else leastLoadedPass load rest m0 acc) = _
  rw [if_pos hlt]

theorem leastLoadedPass_tie (load : String → Option ℚ) (u : String)
    (rest : List String) (m0 : WithTop ℚ) (acc : List String) (l : ℚ)
    (hu : load u = some l) (hlt : ¬ (l : WithTop ℚ) < m0)
    (heq : (l : WithTop ℚ) = m0) :
    leastLoadedPass load (u :: rest) m0 acc
      = leastLoadedPass load rest m0 (acc ++ [u]) := by
  rw [leastLoadedPass_cons, hu]
  show (if (l : WithTop ℚ) < m0 then leastLoadedPass load rest (l : WithTop ℚ) [u]
    else if (l : WithTop ℚ) = m0 then leastLoadedPass load rest m0 (acc ++ [u])
    else leastLoadedPass load rest m0 acc) = _
  rw [if_neg hlt, if_pos heq]

theorem leastLoadedPass_gt (load : String → Option ℚ) (u : String)
    (rest : List String) (m0 : WithTop ℚ) (acc : List String) (l : ℚ)
    (hu : load u = some l) (hlt : ¬ (l : WithTop ℚ) < m0)
    (hne : ¬ (l : WithTop ℚ) = m0) :
    leastLoadedPass load (u :: rest) m0 acc = leastLoadedPass load rest m0 acc := by
  rw [leastLoadedPass_cons, hu]
  show (if (l : WithTop ℚ) < m0 then leastLoadedPass load rest (l : WithTop ℚ) [u]
    else if (l : WithTop ℚ) = m0 then leastLoadedPass load rest m0 (acc ++ [u])
    else leastLoadedPass load rest m0 acc) = _
  rw [if_neg hlt, if_neg hne]

/-- The first component of the first selection pass is the minimum of the
running minimum and all loads seen. -/
theorem leastLoadedPass_fst (load : String → Option ℚ) :
    ∀ (us : List String) (m0 : WithTop ℚ) (acc : List String),
    (leastLoadedPass load us m0 acc).fst = min m0 (minW load us) := by
  intro us
  induction us with
  | nil =>
    intro m0 acc
    show m0 = min m0 ⊤
    rw [min_eq_left le_top]
  | cons u rest ih =>
    intro m0 acc
    cases hu : load u with
    | none => rw [leastLoadedPass_none load u rest m0 acc hu, minW_none load u rest hu, ih]
    | some l =>
      rw [minW_some load u rest l hu]
      by_cases hlt : (l : WithTop ℚ) < m0
      · rw [leastLoadedPass_lt load u rest m0 acc l hu hlt, ih]
        rw [min_eq_right (le_trans (min_le_left _ _) hlt.le)]
      · by_cases heq : (l : WithTop ℚ) = m0
        · rw [leastLoadedPass_tie load u rest m0 acc l hu hlt heq, ih, heq,
            ← min_assoc, min_self]
        · rw [leastLoadedPass_gt load u rest m0 acc l hu hlt heq, ih, ← min_assoc,
            min_eq_left (le_of_not_lt hlt)]

/-- The second component of the first selection pass: the accumulated list
survives exactly when no strictly smaller load shows up, and the URLs whose
load equals the final minimum are appended in input order. -/
theorem leastLoadedPass_snd (load : String → Option ℚ) :
    ∀ (us : List String) (m0 : WithTop ℚ) (acc : List String),
    (leastLoadedPass load us m0 acc).snd =
      (if m0 ≤ minW load us then acc else [])
        ++ us.filter (loadIs load (min m0 (minW load us))) := by
  intro us
  induction us with
  | nil =>
    intro m0 acc
    show acc = (if m0 ≤ ⊤ then acc else []) ++ []
    rw [if_pos le_top, List.append_nil]
  | cons u rest ih =>
    intro m0 acc
    cases hu : load u with
    | none =>
      rw [leastLoadedPass_none load u rest m0 acc hu, minW_none load u rest hu, ih]
      rw [List.filter_cons_of_neg (by simp [loadIs, hu])]
    | some l =>
      rw [minW_some load u rest l hu]
      by_cases hlt : (l : WithTop ℚ) < m0
      · rw [leastLoadedPass_lt load u rest m0 acc l hu hlt, ih]
        have hmin : min m0 (min (l : WithTop ℚ) (minW load rest))
            = min (l : WithTop ℚ) (minW load rest) :=
          min_eq_right (le_trans (min_le_left _ _) hlt.le)
        have hcond : ¬ m0 ≤ min (l : WithTop ℚ) (minW load rest) := by
          intro hc
          exact absurd (le_trans hc (min_le_left _ _)) (not_le.mpr hlt)
        rw [if_neg hcond, hmin]
        by_cases hlw : (l : WithTop ℚ) ≤ minW load rest
        · rw [if_pos hlw,
            List.filter_cons_of_pos (by
              simp only [loadIs, hu, decide_eq_true_eq]
              exact (min_eq_left hlw).symm),
            List.nil_append, List.singleton_append]
        · rw [if_neg hlw,
            List.filter_cons_of_neg (by
              simp only [loadIs, hu, decide_eq_true_eq]
              intro hc
              exact hlw (le_trans (le_of_eq hc) (min_le_right _ _))),
            List.nil_append]
      · by_cases heq : (l : WithTop ℚ) = m0
        · rw [leastLoadedPass_tie load u rest m0 acc l hu hlt heq, ih, heq,
            ← min_assoc, min_self]
          have hcond2 : (m0 ≤ min m0 (minW load rest)) ↔ m0 ≤ minW load rest := by
            rw [le_min_iff]
            exact ⟨fun h => h.2, fun h => ⟨le_refl _, h⟩⟩
          by_cases hmw : m0 ≤ minW load rest
          · rw [if_pos (hcond2.mpr hmw), if_pos hmw,
              List.filter_cons_of_pos (by
                simp only [loadIs, hu, decide_eq_true_eq]
                rw [heq]
                exact (min_eq_left hmw).symm),
              List.append_assoc, List.singleton_append]
          · rw [if_neg (fun hc => hmw (hcond2.mp hc)), if_neg hmw,
              List.filter_cons_of_neg (by
                simp only [loadIs, hu, decide_eq_true_eq]
                rw [heq]
                intro hc
                exact hmw (by rw [hc]; exact min_le_right _ _)),
              List.nil_append]
        · have hml : m0 ≤ (l : WithTop ℚ) := le_of_not_lt hlt
          have hmlt : m0 < (l : WithTop ℚ) := lt_of_le_of_ne hml (fun h => heq h.symm)
          rw [leastLoadedPass_gt load u rest m0 acc l hu hlt heq, ih, ← min_assoc,
            min_eq_left hml]
          have hcond3 : (m0 ≤ min (l : WithTop ℚ) (minW load rest))
              ↔ m0 ≤ minW load rest := by
            rw [le_min_iff]
            exact ⟨fun h => h.2, fun h => ⟨hml, h⟩⟩
          rw [List.filter_cons_of_neg (by
            simp only [loadIs, hu, decide_eq_true_eq]
            intro hc
            exact absurd (le_trans (le_of_eq hc) (min_le_left _ _))
              (not_le.mpr hmlt))]
          by_cases hmw : m0 ≤ minW load rest
          · rw [if_pos (hcond3.mpr hmw), if_pos hmw]
          · rw [if_neg (fun hc => hmw (hcond3.mp hc)), if_neg hmw]

/-- `minW` is a lower bound of every reported load. -/
theorem minW_le (load : String → Option ℚ) :
    ∀ (us : List String) (u : String) (l : ℚ), u ∈ us → load u = some l →
    minW load us ≤ (l : WithTop ℚ) := by
  intro us
  induction us with
  | nil => intro u l hu; cases hu
  | cons v rest ih =>
    intro u l hu hl
    rcases List.mem_cons.mp hu with rfl | htl
    · rw [minW_some load u rest l hl]
      exact min_le_left _ _
    · cases hv : load v with
      | none => rw [minW_none load v rest hv]; exact ih u l htl hl
      | some lv =>
        rw [minW_some load v rest lv hv]
        exact le_trans (min_le_right _ _) (ih u l htl hl)

/-- `minW` is `⊤` exactly when every probe returned `None`. -/
theorem minW_top_iff (load : String → Option ℚ) :
    ∀ us : List String, minW load us = ⊤ ↔ ∀ u ∈ us, load u = none := by
  intro us
  induction us with
  | nil => simp [minW]
  | cons v rest ih =>
    constructor
    · intro htop u hu
      rcases List.mem_cons.mp hu with rfl | htl
      · cases hv : load u with
        | none => rfl
        | some lv =>
          rw [minW_some load u rest lv hv] at htop
          exact absurd (le_trans (le_of_eq htop.symm) (min_le_left _ _))
            (not_le.mpr (WithTop.coe_lt_top lv))
      · cases hv : load v with
        | none =>
          rw [minW_none load v rest hv] at htop
          exact (ih.mp htop) u htl
        | some lv =>
          rw [minW_some load v rest lv hv] at htop
          exact absurd (le_trans (le_of_eq htop.symm) (min_le_left _ _))
            (not_le.mpr (WithTop.coe_lt_top lv))
    · intro hall
      rw [minW_none load v rest (hall v (List.mem_cons_self v rest))]
      exact ih.mpr (fun u hu => hall u (List.mem_cons_of_mem v hu))

/-- When some probe reported a load, the minimum is attained by a member. -/
theorem minW_attained (load : String → Option ℚ) :
    ∀ us : List String, minW load us ≠ ⊤ →
    ∃ u ∈ us, loadIs load (minW load us) u = true := by
  intro us
  induction us with
  | nil => intro h; exact absurd rfl h
  | cons v rest ih =>
    intro h
    cases hv : load v with
    | none =>
      rw [minW_none load v rest hv] at h ⊢
      obtain ⟨u, hu, hl⟩ := ih h
      exact ⟨u, List.mem_cons_of_mem v hu, hl⟩
    | some lv =>
      rw [minW_some load v rest lv hv]
      by_cases hle : (lv : WithTop ℚ) ≤ minW load rest
      · refine ⟨v, List.mem_cons_self v rest, ?_⟩
        simp only [loadIs, hv, decide_eq_true_eq]
        exact (min_eq_left hle).symm
      · have hwl : minW load rest < (lv : WithTop ℚ) := lt_of_not_le hle
        have hwt : minW load rest ≠ ⊤ := by
          intro hc
          rw [hc] at hwl
          exact absurd hwl (not_lt.mpr le_top)
        obtain ⟨u, hu, hl⟩ := ih hwt
        refine ⟨u, List.mem_cons_of_mem v hu, ?_⟩
        rw [min_eq_right hwl.le]
        exact hl

/-- Unfolding equations of `lruPass`. -/
theorem lruPass_not_found (servers : List Server) (now : Int) (u : String)
    (rest : List String) (lr : Int) (sel : Option String)
    (hf : servers.find? (fun s => s.url == u) = none) :
    lruPass servers now (u :: rest) lr sel = lruPass servers now rest lr sel := by
  show (match servers.find? (fun s => s.url == u) with
    | none => lruPass servers now rest lr sel
    | some server_entry =>
      match server_entry.last_utilization with
      | none => some u
      | some t =>
        if lr < now - t then lruPass servers now rest (now - t) (some u)
        else lruPass servers now rest lr sel) = _
  rw [hf]

theorem lruPass_never (servers : List Server) (now : Int) (u : String)
    (rest : List String) (lr : Int) (sel : Option String) (se : Server)
    (hf : servers.find? (fun s => s.url == u) = some se)
    (hl : se.last_utilization = none) :
    lruPass servers now (u :: rest) lr sel = some u := by
  show (match servers.find? (fun s => s.url == u) with
    | none => lruPass servers now rest lr sel
    | some server_entry =>
      match server_entry.last_utilization with
      | none => some u
      | some t =>
        if lr < now - t then lruPass servers now rest (now - t) (some u)
        else lruPass servers now rest lr sel) = _
  rw [hf]
  show (match se.last_utilization with
    | none => some u
    | some t =>
      if lr < now - t then lruPass servers now rest (now - t) (some u)
      else lruPass servers now rest lr sel) = _
  rw [hl]

theorem lruPass_upd (servers : List Server) (now : Int) (u : String)
    (rest : List String) (lr : Int) (sel : Option String) (se : Server) (t : Int)
    (hf : servers.find? (fun s => s.url == u) = some se)
    (hl : se.last_utilization = some t) (hc : lr < now - t) :
    lruPass servers now (u :: rest) lr sel
      = lruPass servers now rest (now - t) (some u) := by
  show (match servers.find? (fun s => s.url == u) with
    | none => lruPass servers now rest lr sel
    | some server_entry =>
      match server_entry.last_utilization with
      | none => some u
      | some t =>
        if lr < now - t then lruPass servers now rest (now - t) (some u)
        else lruPass servers now rest lr sel) = _
  rw [hf]
  show (match se.last_utilization with
    | none => some u
    | some t =>
      if lr < now - t then lruPass servers now rest (now - t) (some u)
      else lruPass servers now rest lr sel) = _
  rw [hl]
  show (if lr < now - t then lruPass servers now rest (now - t) (some u)
    else lruPass servers now rest lr sel) = _
  rw [if_pos hc]

theorem lruPass_keep (servers : List Server) (now : Int) (u : String)
    (rest : List String) (lr : Int) (sel : Option String) (se : Server) (t : Int)
    (hf : servers.find? (fun s => s.url == u) = some se)
    (hl : se.last_utilization = some t) (hc : ¬ lr < now - t) :
    lruPass servers now (u :: rest) lr sel = lruPass servers now rest lr sel := by
  show (match servers.find? (fun s => s.url == u) with
    | none => lruPass servers now rest lr sel
    | some server_entry =>
      match server_entry.last_utilization with
      | none => some u
      | some t =>
        if lr < now - t then lruPass servers now rest (now - t) (some u)
        else lruPass servers now rest lr sel) = _
  rw [hf]
  show (match se.last_utilization with
    | none => some u
    | some t =>
      if lr < now - t then lruPass servers now rest (now - t) (some u)
      else lruPass servers now rest lr sel) = _
  rw [hl]
  show (if lr < now - t then lruPass servers now rest (now - t) (some u)
    else lruPass servers now rest lr sel) = _
  rw [if_neg hc]

/-- Second pass, never-used case: when some candidate with a registry entry was
never utilized, the pass returns such a candidate. -/
theorem lruPass_never_used (servers : List Server) (now : Int) :
    ∀ (cs : List String) (lr : Int) (sel : Option String),
    (∀ c ∈ cs, ∃ s, servers.find? (fun x => x.url == c) = some s) →
    (∃ c ∈ cs, ∃ s, servers.find? (fun x => x.url == c) = some s ∧
      s.last_utilization = none) →
    ∃ w ∈ cs, lruPass servers now cs lr sel = some w ∧
      ∃ s, servers.find? (fun x => x.url == w) = some s ∧
        s.last_utilization = none := by
  intro cs
  induction cs with
  | nil =>
    intro lr sel _ hex
    obtain ⟨c, hc, _⟩ := hex
    cases hc
  | cons c rest ih =>
    intro lr sel hreg hex
    obtain ⟨s, hs⟩ := hreg c (List.mem_cons_self c rest)
    have hreg2 : ∀ c2 ∈ rest, ∃ s2, servers.find? (fun x => x.url == c2) = some s2 :=
      fun c2 h => hreg c2 (List.mem_cons_of_mem c h)
    cases hl : s.last_utilization with
    | none =>
      exact ⟨c, List.mem_cons_self c rest,
        lruPass_never servers now c rest lr sel s hs hl, s, hs, hl⟩
    | some t =>
      have hex2 : ∃ c2 ∈ rest, ∃ s2,
          servers.find? (fun x => x.url == c2) = some s2 ∧
            s2.last_utilization = none := by
        obtain ⟨c0, hc0, s0, hs0, hl0⟩ := hex
        rcases List.mem_cons.mp hc0 with rfl | htl
        · rw [hs] at hs0
          injection hs0 with hss
          subst hss
          rw [hl] at hl0
          cases hl0
        · exact ⟨c0, htl, s0, hs0, hl0⟩
      by_cases hc : lr < now - t
      · rw [lruPass_upd servers now c rest lr sel s t hs hl hc]
        obtain ⟨w, hw, hres, hws⟩ := ih (now - t) (some c) hreg2 hex2
        exact ⟨w, List.mem_cons_of_mem c hw, hres, hws⟩
      · rw [lruPass_keep servers now c rest lr sel s t hs hl hc]
        obtain ⟨w, hw, hres, hws⟩ := ih lr sel hreg2 hex2
        exact ⟨w, List.mem_cons_of_mem c hw, hres, hws⟩

/-- Second pass, all-used case: either no candidate beats the accumulator (the
initial selection is kept), or the pass returns a candidate whose idle time
`now - last_utilization` beats the accumulator and every candidate's. -/
theorem lruPass_all_used (servers : List Server) (now : Int) :
    ∀ (cs : List String) (lr : Int) (sel : Option String),
    (∀ c ∈ cs, ∃ s t, servers.find? (fun x => x.url == c) = some s ∧
      s.last_utilization = some t) →
    (lruPass servers now cs lr sel = sel ∧
      ∀ c ∈ cs, ∀ s t, servers.find? (fun x => x.url == c) = some s →
        s.last_utilization = some t → now - t ≤ lr)
    ∨ (∃ w ∈ cs, lruPass servers now cs lr sel = some w ∧
        ∃ sw tw, servers.find? (fun x => x.url == w) = some sw ∧
          sw.last_utilization = some tw ∧ lr < now - tw ∧
          ∀ c ∈ cs, ∀ s t, servers.find? (fun x => x.url == c) = some s →
            s.last_utilization = some t → now - t ≤ now - tw) := by
  intro cs
  induction cs with
  | nil =>
    intro lr sel _
    left
    exact ⟨rfl, fun c hc => absurd hc (List.not_mem_nil c)⟩
  | cons c rest ih =>
    intro lr sel hall
    obtain ⟨s, t, hs, hl⟩ := hall c (List.mem_cons_self c rest)
    have hall2 : ∀ c2 ∈ rest, ∃ s2 t2,
        servers.find? (fun x => x.url == c2) = some s2 ∧
          s2.last_utilization = some t2 :=
      fun c2 h => hall c2 (List.mem_cons_of_mem c h)
    by_cases hcmp : lr < now - t
    · rw [lruPass_upd servers now c rest lr sel s t hs hl hcmp]
      rcases ih (now - t) (some c) hall2 with ⟨hres, hbound⟩ |
        ⟨w, hw, hres, sw, tw, hsw, hlw, hlt, hbound⟩
      · right
        refine ⟨c, List.mem_cons_self c rest, hres, s, t, hs, hl, hcmp, ?_⟩
        intro c2 hc2 s2 t2 hs2 hl2
        rcases List.mem_cons.mp hc2 with rfl | htl
        · rw [hs] at hs2
          injection hs2 with hss
          subst hss
          rw [hl] at hl2
          injection hl2 with htt
          subst htt
          exact le_refl _
        · exact hbound c2 htl s2 t2 hs2 hl2
      · right
        refine ⟨w, List.mem_cons_of_mem c hw, hres, sw, tw, hsw, hlw,
          lt_trans hcmp hlt, ?_⟩
        intro c2 hc2 s2 t2 hs2 hl2
        rcases List.mem_cons.mp hc2 with rfl | htl
        · rw [hs] at hs2
          injection hs2 with hss
          subst hss
          rw [hl] at hl2
          injection hl2 with htt
          subst htt
          exact hlt.le
        · exact hbound c2 htl s2 t2 hs2 hl2
    · rw [lruPass_keep servers now c rest lr sel s t hs hl hcmp]
      rcases ih lr sel hall2 with ⟨hres, hbound⟩ |
        ⟨w, hw, hres, sw, tw, hsw, hlw, hlt, hbound⟩
      · left
        refine ⟨hres, ?_⟩
        intro c2 hc2 s2 t2 hs2 hl2
        rcases List.mem_cons.mp hc2 with rfl | htl
        · rw [hs] at hs2
          injection hs2 with hss
          subst hss
          rw [hl] at hl2
          injection hl2 with htt
          subst htt
          exact not_lt.mp hcmp
        · exact hbound c2 htl s2 t2 hs2 hl2
      · right
        refine ⟨w, List.mem_cons_of_mem c hw, hres, sw, tw, hsw, hlw, hlt, ?_⟩
        intro c2 hc2 s2 t2 hs2 hl2
        rcases List.mem_cons.mp hc2 with rfl | htl
        · rw [hs] at hs2
          injection hs2 with hss
          subst hss
          rw [hl] at hl2
          injection hl2 with htt
          subst htt
          exact le_of_lt (lt_of_le_of_lt (not_lt.mp hcmp) hlt)
        · exact hbound c2 htl s2 t2 hs2 hl2

/-- The first pass starting from `float('inf')` and `[]` collects exactly the
URLs whose load equals the overall minimum. -/
theorem leastLoadedPass_init (load : String → Option ℚ) (cs : List String) :
    (leastLoadedPass load cs ⊤ []).snd
      = cs.filter (loadIs load (minW load cs)) := by
  rw [leastLoadedPass_snd, min_eq_right le_top, ite_self, List.nil_append]

theorem get_least_eq_nil (st : ComposerState) (now : Int)
    (load : String → Option ℚ) (cs : List String)
    (h : (leastLoadedPass load cs ⊤ []).snd = []) :
    get_least_utilized_server st now load cs = none := by
  simp only [get_least_utilized_server]
  rw [h]

theorem get_least_eq_cons (st : ComposerState) (now : Int)
    (load : String → Option ℚ) (cs : List String) (c : String) (ms : List String)
    (h : (leastLoadedPass load cs ⊤ []).snd = c :: ms) :
    get_least_utilized_server st now load cs
      = lruPass st.servers now (c :: ms) (-1) none := by
  simp only [get_least_utilized_server]
  rw [h]

/-- Claim C2: `get_least_utilized_server` over registered URLs with
non-future `last_utilization` stamps returns `none` exactly when every
compatible server's load probe returned `None`; a returned server is
compatible, carries a minimal load among the servers that reported one, and —
among the servers tied at that minimal load — is never-used whenever some tied
server is never-used, and otherwise maximizes `now - last_utilization`. -/
theorem C2_get_least_utilized_server (st : ComposerState) (now : Int)
    (load : String → Option ℚ) (compatible_servers : List String)
    (hreg : ∀ u ∈ compatible_servers, ∃ s,
      st.servers.find? (fun x => x.url == u) = some s)
    (hpast : ∀ s ∈ st.servers, ∀ t, s.last_utilization = some t → t ≤ now) :
    (get_least_utilized_server st now load compatible_servers = none
      ↔ ∀ u ∈ compatible_servers, load u = none) ∧
    (∀ w, get_least_utilized_server st now load compatible_servers = some w →
      w ∈ compatible_servers ∧
      (∃ lw, load w = some lw ∧
        ∀ u ∈ compatible_servers, ∀ l, load u = some l → lw ≤ l) ∧
      ((∃ c ∈ compatible_servers.filter (fun u => decide (load u = load w)),
          ∃ s, st.servers.find? (fun x => x.url == c) = some s ∧
            s.last_utilization = none) →
        ∃ s, st.servers.find? (fun x => x.url == w) = some s ∧
          s.last_utilization = none) ∧
      (∀ c ∈ compatible_servers.filter (fun u => decide (load u = load w)),
        ∀ s t, st.servers.find? (fun x => x.url == c) = some s →
          s.last_utilization = some t →
          ∀ sw tw, st.servers.find? (fun x => x.url == w) = some sw →
            sw.last_utilization = some tw → now - t ≤ now - tw)) := by
  have hsnd := leastLoadedPass_init load compatible_servers
  have hminssub : ∀ c ∈ compatible_servers.filter
      (loadIs load (minW load compatible_servers)), c ∈ compatible_servers :=
    fun c hc => List.mem_of_mem_filter hc
  have hne_ne : compatible_servers.filter
        (loadIs load (minW load compatible_servers)) ≠ [] →
      get_least_utilized_server st now load compatible_servers ≠ none := by
    intro hfne
    cases hfil : compatible_servers.filter
        (loadIs load (minW load compatible_servers)) with
    | nil => exact absurd hfil hfne
    | cons c0 ms =>
      rw [get_least_eq_cons st now load compatible_servers c0 ms
        (by rw [hsnd, hfil])]
      have hregm : ∀ c ∈ (c0 :: ms), ∃ s,
          st.servers.find? (fun x => x.url == c) = some s := by
        intro c hc
        apply hreg
        apply hminssub
        rw [hfil]
        exact hc
      by_cases hnu : ∃ c ∈ (c0 :: ms), ∃ s,
          st.servers.find? (fun x => x.url == c) = some s ∧
            s.last_utilization = none
      · obtain ⟨w, _, hres, _⟩ :=
          lruPass_never_used st.servers now (c0 :: ms) (-1) none hregm hnu
        rw [hres]
        simp
      · have hall : ∀ c ∈ (c0 :: ms), ∃ s t,
            st.servers.find? (fun x => x.url == c) = some s ∧
              s.last_utilization = some t := by
          intro c hc
          obtain ⟨s, hs⟩ := hregm c hc
          cases hl : s.last_utilization with
          | none => exact absurd ⟨c, hc, s, hs, hl⟩ hnu
          | some t => exact ⟨s, t, hs, hl⟩
        rcases lruPass_all_used st.servers now (c0 :: ms) (-1) none hall with
          ⟨hres, hbound⟩ | ⟨w, _, hres, _⟩
        · exfalso
          obtain ⟨s, t, hs, hl⟩ := hall c0 (List.mem_cons_self c0 ms)
          have hb := hbound c0 (List.mem_cons_self c0 ms) s t hs hl
          have hsm : s ∈ st.servers := List.mem_of_find?_eq_some hs
          have hts := hpast s hsm t hl
          omega
        · rw [hres]
          simp
  constructor
  · constructor
    · intro hnone u hu
      by_contra hl
      obtain ⟨l, hl⟩ := Option.ne_none_iff_exists'.mp hl
      have hminlt : minW load compatible_servers ≠ ⊤ := by
        intro hc
        have h2 := (minW_top_iff load compatible_servers).mp hc u hu
        rw [h2] at hl
        cases hl
      obtain ⟨u0, hu0, hL⟩ := minW_attained load compatible_servers hminlt
      have hfne : compatible_servers.filter
          (loadIs load (minW load compatible_servers)) ≠ [] := by
        intro hc
        have h3 := List.filter_eq_nil_iff.mp hc u0 hu0
        exact h3 hL
      exact hne_ne hfne hnone
    · intro hall
      apply get_least_eq_nil
      rw [hsnd]
      rw [List.filter_eq_nil_iff]
      intro u hu
      simp [loadIs, hall u hu]
  · intro w hw
    cases hfil : compatible_servers.filter
        (loadIs load (minW load compatible_servers)) with
    | nil =>
      rw [get_least_eq_nil st now load compatible_servers
        (by rw [hsnd, hfil])] at hw
      cases hw
    | cons c0 ms =>
      rw [get_least_eq_cons st now load compatible_servers c0 ms
        (by rw [hsnd, hfil])] at hw
      have hregm : ∀ c ∈ (c0 :: ms), ∃ s,
          st.servers.find? (fun x => x.url == c) = some s := by
        intro c hc
        apply hreg
        apply hminssub
        rw [hfil]
        exact hc
      have hfacts : ∀ w0 ∈ (c0 :: ms), w0 ∈ compatible_servers ∧
          ∃ lw, load w0 = some lw ∧
            (lw : WithTop ℚ) = minW load compatible_servers := by
        intro w0 hw0
        have hwmins : w0 ∈ compatible_servers.filter
            (loadIs load (minW load compatible_servers)) := by
          rw [hfil]
          exact hw0
        refine ⟨List.mem_of_mem_filter hwmins, ?_⟩
        have hq := List.of_mem_filter hwmins
        cases hl0 : load w0 with
        | none => simp [loadIs, hl0] at hq
        | some l0 => exact ⟨l0, rfl, by simpa [loadIs, hl0] using hq⟩
      by_cases hnu : ∃ c ∈ (c0 :: ms), ∃ s,
          st.servers.find? (fun x => x.url == c) = some s ∧
            s.last_utilization = none
      · obtain ⟨w2, hw2m, hres, s2, hs2, hl2⟩ :=
          lruPass_never_used st.servers now (c0 :: ms) (-1) none hregm hnu
        rw [hres] at hw
        injection hw with hww
        subst hww
        obtain ⟨hwcomp, lw, hlw, hlwM⟩ := hfacts w2 hw2m
        refine ⟨hwcomp, ⟨lw, hlw, ?_⟩, ?_, ?_⟩
        · intro u hu l hl
          have hle := minW_le load compatible_servers u l hu hl
          rw [← hlwM] at hle
          exact WithTop.coe_le_coe.mp hle
        · intro _
          exact ⟨s2, hs2, hl2⟩
        · intro c hc s3 t3 hfs3 hlt3 sw tw hsw hlw2
          rw [hs2] at hsw
          injection hsw with h
          subst h
          rw [hl2] at hlw2
          cases hlw2
      · have hall : ∀ c ∈ (c0 :: ms), ∃ s t,
            st.servers.find? (fun x => x.url == c) = some s ∧
              s.last_utilization = some t := by
          intro c hc
          obtain ⟨s, hs⟩ := hregm c hc
          cases hl : s.last_utilization with
          | none => exact absurd ⟨c, hc, s, hs, hl⟩ hnu
          | some t => exact ⟨s, t, hs, hl⟩
        rcases lruPass_all_used st.servers now (c0 :: ms) (-1) none hall with
          ⟨hres, _⟩ | ⟨w2, hw2m, hres, sw0, tw0, hsw0, hlw0, _, hbound⟩
        · rw [hres] at hw
          cases hw
        · rw [hres] at hw
          injection hw with hww
          subst hww
          obtain ⟨hwcomp, lw, hlw, hlwM⟩ := hfacts w2 hw2m
          have hfilters : compatible_servers.filter
                (fun u => decide (load u = load w2))
              = compatible_servers.filter
                (loadIs load (minW load compatible_servers)) := by
            apply List.filter_congr
            intro u hu
            cases hu2 : load u with
            | none =>
              have h1 : decide ((none : Option ℚ) = load w2) = false := by
                rw [hlw]
                simp
              have h2 : loadIs load (minW load compatible_servers) u = false := by
                simp [loadIs, hu2]
              rw [h1, h2]
            | some l =>
              by_cases hlq : l = lw
              · subst hlq
                have h1 : decide (some l = load w2) = true := by
                  rw [hlw]
                  simp
                have h2 : loadIs load (minW load compatible_servers) u = true := by
                  simp only [loadIs, hu2, decide_eq_true_eq]
                  exact hlwM
                rw [h1, h2]
              · have h1 : decide (some l = load w2) = false := by
                  rw [hlw]
                  simp [hlq]
                have h2 : loadIs load (minW load compatible_servers) u = false := by
                  simp only [loadIs, hu2, decide_eq_false_iff_not]
                  intro hc
                  rw [← hlwM] at hc
                  exact hlq (WithTop.coe_eq_coe.mp hc)
                rw [h1, h2]
          refine ⟨hwcomp, ⟨lw, hlw, ?_⟩, ?_, ?_⟩
          · intro u hu l hl
            have hle := minW_le load compatible_servers u l hu hl
            rw [← hlwM] at hle
            exact WithTop.coe_le_coe.mp hle
          · intro hex
            exfalso
            obtain ⟨c, hc, s3, hs3, hl3⟩ := hex
            rw [hfilters, hfil] at hc
            exact hnu ⟨c, hc, s3, hs3, hl3⟩
          · intro c hc s3 t3 hs3 hlt3 sw tw hsw hlw2
            rw [hsw0] at hsw
            injection hsw with h
            subst h
            rw [hlw0] at hlw2
            injection hlw2 with h
            subst h
            rw [hfilters, hfil] at hc
            exact hbound c hc s3 t3 hs3 hlt3

/-- Witness for C2: the one-backend registry of `exState` with a constant
load `1`; the selector cannot return `none`. -/
theorem C2_get_least_utilized_server_witness :
    (∀ u ∈ ["http://h:8000"], ∃ s,
      exState.servers.find? (fun x => x.url == u) = some s) ∧
    (∀ s ∈ exState.servers, ∀ t, s.last_utilization = some t → t ≤ (5 : Int)) ∧
    get_least_utilized_server exState 5 (fun _ => some 1) ["http://h:8000"]
      ≠ none := by
  have hreg : ∀ u ∈ ["http://h:8000"], ∃ s,
      exState.servers.find? (fun x => x.url == u) = some s := by
    intro u hu
    rw [List.mem_singleton] at hu
    subst hu
    exact ⟨oneServer, by decide⟩
  have hpast : ∀ s ∈ exState.servers, ∀ t,
      s.last_utilization = some t → t ≤ (5 : Int) := by
    intro s hs t ht
    rw [show exState.servers = [oneServer] from rfl, List.mem_singleton] at hs
    subst hs
    cases ht
  refine ⟨hreg, hpast, ?_⟩
  intro hnone
  have h := (C2_get_least_utilized_server exState 5 (fun _ => some 1)
    ["http://h:8000"] hreg hpast).1.mp hnone "http://h:8000"
    (List.mem_singleton.mpr rfl)
  cases h

/-- Claim C3 (modelled from the spec for the stamping step): the dispatcher
selects with `get_least_utilized_server` and stamps `last_utilization = now`
on the chosen backend before forwarding; hence over two equally-loaded
registered backends of which exactly one was ever used, the first request goes
to the never-used one (whose stamp is then set to the request time) and the
second identical request goes to the other. -/
theorem C3_dispatch_stamps_and_alternates (st : ComposerState) (uA uB : String)
    (ga gb : List String) (t0 now1 now2 : Int) (l1 l2 : ℚ)
    (load1 load2 : String → Option ℚ)
    (hAB : uA ≠ uB)
    (hsrv : st.servers
      = [{ url := uA, allowed_groups := ga, last_utilization := none },
         { url := uB, allowed_groups := gb, last_utilization := some t0 }])
    (h01 : t0 < now1) (h12 : now1 ≤ now2)
    (hl1A : load1 uA = some l1) (hl1B : load1 uB = some l1)
    (hl2A : load2 uA = some l2) (hl2B : load2 uB = some l2) :
    (dispatch st now1 load1 [uA, uB]).fst = some uA ∧
    (dispatch st now1 load1 [uA, uB]).snd.servers
      = [{ url := uA, allowed_groups := ga, last_utilization := some now1 },
         { url := uB, allowed_groups := gb, last_utilization := some t0 }] ∧
    (dispatch (dispatch st now1 load1 [uA, uB]).snd now2 load2 [uA, uB]).fst
      = some uB := by
  have hBA : uB ≠ uA := fun h => hAB h.symm
  have hm1 : (leastLoadedPass load1 [uA, uB] ⊤ []).snd = [uA, uB] := by
    rw [leastLoadedPass_init]
    have hW : minW load1 [uA, uB] = (l1 : WithTop ℚ) := by
      rw [minW_some load1 uA [uB] l1 hl1A, minW_some load1 uB [] l1 hl1B]
      show min (l1 : WithTop ℚ) (min (l1 : WithTop ℚ) ⊤) = (l1 : WithTop ℚ)
      rw [min_eq_left le_top, min_self]
    rw [hW,
      List.filter_cons_of_pos (by simp [loadIs, hl1A]),
      List.filter_cons_of_pos (by simp [loadIs, hl1B])]
    rfl
  have hfA : st.servers.find? (fun x => x.url == uA)
      = some { url := uA, allowed_groups := ga, last_utilization := none } := by
    rw [hsrv, List.find?_cons_of_pos _ (by simp)]
  have hg1 : get_least_utilized_server st now1 load1 [uA, uB] = some uA := by
    rw [get_least_eq_cons st now1 load1 [uA, uB] uA [uB] hm1]
    exact lruPass_never st.servers now1 uA [uB] (-1) none _ hfA rfl
  have hd1 : dispatch st now1 load1 [uA, uB]
      = (some uA, mark_utilization st uA now1) := by
    unfold dispatch
    rw [hg1]
  have hsrv1 : (mark_utilization st uA now1).servers
      = [{ url := uA, allowed_groups := ga, last_utilization := some now1 },
         { url := uB, allowed_groups := gb, last_utilization := some t0 }] := by
    unfold mark_utilization
    rw [hsrv]
    simp [hBA]
  have hm2 : (leastLoadedPass load2 [uA, uB] ⊤ []).snd = [uA, uB] := by
    rw [leastLoadedPass_init]
    have hW : minW load2 [uA, uB] = (l2 : WithTop ℚ) := by
      rw [minW_some load2 uA [uB] l2 hl2A, minW_some load2 uB [] l2 hl2B]
      show min (l2 : WithTop ℚ) (min (l2 : WithTop ℚ) ⊤) = (l2 : WithTop ℚ)
      rw [min_eq_left le_top, min_self]
    rw [hW,
      List.filter_cons_of_pos (by simp [loadIs, hl2A]),
      List.filter_cons_of_pos (by simp [loadIs, hl2B])]
    rfl
  have hfA2 : (mark_utilization st uA now1).servers.find? (fun x => x.url == uA)
      = some { url := uA, allowed_groups := ga, last_utilization := some now1 } := by
    rw [hsrv1, List.find?_cons_of_pos _ (by simp)]
  have hfB2 : (mark_utilization st uA now1).servers.find? (fun x => x.url == uB)
      = some { url := uB, allowed_groups := gb, last_utilization := some t0 } := by
    rw [hsrv1, List.find?_cons_of_neg _ (by simp [hAB]),
      List.find?_cons_of_pos _ (by simp)]
  have hg2 : get_least_utilized_server (mark_utilization st uA now1) now2 load2
      [uA, uB] = some uB := by
    rw [get_least_eq_cons (mark_utilization st uA now1) now2 load2 [uA, uB]
      uA [uB] hm2]
    rw [lruPass_upd (mark_utilization st uA now1).servers now2 uA [uB] (-1) none
      { url := uA, allowed_groups := ga, last_utilization := some now1 } now1
      hfA2 rfl (by omega)]
    rw [lruPass_upd (mark_utilization st uA now1).servers now2 uB [] (now2 - now1)
      (some uA) { url := uB, allowed_groups := gb, last_utilization := some t0 } t0
      hfB2 rfl (by omega)]
    rfl
  refine ⟨?_, ?_, ?_⟩
  · rw [hd1]
  · rw [hd1]
    exact hsrv1
  · rw [hd1]
    show (dispatch (mark_utilization st uA now1) now2 load2 [uA, uB]).fst = some uB
    unfold dispatch
    rw [hg2]

/-- Witness for C3: two backends at equal load, `http://a:1` never used,
`http://b:1` last used at `0`; the request at `10` goes to `a`, the one at
`20` to `b`. -/
theorem C3_dispatch_stamps_and_alternates_witness :
    ("http://a:1" : String) ≠ "http://b:1" ∧
    (dispatch (baseState
        [{ url := "http://a:1", allowed_groups := ["g"], last_utilization := none },
         { url := "http://b:1", allowed_groups := ["g"],
           last_utilization := some 0 }])
      10 (fun _ => some 1) ["http://a:1", "http://b:1"]).fst = some "http://a:1" ∧
    (dispatch (dispatch (baseState
        [{ url := "http://a:1", allowed_groups := ["g"], last_utilization := none },
         { url := "http://b:1", allowed_groups := ["g"],
           last_utilization := some 0 }])
      10 (fun _ => some 1) ["http://a:1", "http://b:1"]).snd
      20 (fun _ => some 2) ["http://a:1", "http://b:1"]).fst = some "http://b:1" :=
  ⟨by decide,
    (C3_dispatch_stamps_and_alternates _ "http://a:1" "http://b:1" ["g"] ["g"]
      0 10 20 1 2 (fun _ => some 1) (fun _ => some 2) (by decide) rfl (by decide)
      (by decide) rfl rfl rfl rfl).1,
    (C3_dispatch_stamps_and_alternates _ "http://a:1" "http://b:1" ["g"] ["g"]
      0 10 20 1 2 (fun _ => some 1) (fun _ => some 2) (by decide) rfl (by decide)
      (by decide) rfl rfl rfl rfl).2.2⟩

end VllmComposer
